import Mathlib

/-!
# Verification of the p-adic number wrapper (src/padic.hpp, src/padic.cpp)

The repository wraps the FLINT `padic` module: a `PadicContext` validates a
prime and holds the shared display mode, a `PadicNumber` couples a context to
a working precision and a `(valuation, unit)` pair, and the free functions
`operator+`, `operator-`, `log` and `exp` dispatch to the FLINT kernels.

The wrapper code itself (constructors, the missing context checks, the
default result precision `PADIC_DEFAULT_PREC = 20`, the print-mode mutation
in `toString`) is embedded directly from `src/padic.hpp`.  The FLINT kernels
(`padic_set_ui`, `padic_set_si`, `padic_get_str`, `padic_add`, `padic_sub`,
`padic_log`, `padic_exp`, `aprcl_is_prime`) are not part of the repository
source; they are modelled from the specification, which describes them in
section 3 (data model), 4.3 (codec), 4.4 (arithmetic) and 4.5 (series
engine).  Those definitions carry a `Modelled from the spec:` note.
-/

namespace flint

/-- The three FLINT print modes, as in `enum class PadicPrintMode`. -/
inductive PadicPrintMode where
  | TERSE
  | SERIES
  | VAL_UNIT
deriving DecidableEq

/-- The error taxonomy of spec section 7; the C++ code signals these by
throwing exceptions. -/
inductive PadicError where
  | invalidPrime
  | invalidPrecision
  | contextMismatch
  | domainError
deriving DecidableEq

/-- Modelled from the spec: the primality test supplied by the big-integer
collaborator (`aprcl_is_prime`), a deterministic test.  Here: trial division
by every candidate below the argument. -/
def isPrime (n : ℕ) : Bool :=
  decide (2 ≤ n) && (List.range n).all fun m => decide (m < 2) || decide (n % m ≠ 0)

/-- The context object of `class PadicContext`: the validated prime, the
`[min, max]` window of precomputed powers (a performance hint carried along
but never semantically relevant), and the mutable shared display mode. -/
structure PadicContext where
  p : ℕ
  pmin : ℤ
  pmax : ℤ
  mode : PadicPrintMode
deriving DecidableEq

/-- The context record produced by a successful construction:
`padic_ctx_init(_ctx, p, min, max, PADIC_TERSE)` starts in TERSE mode. -/
def mkCtxRaw (p : ℕ) (pmin pmax : ℤ) : PadicContext :=
  ⟨p, pmin, pmax, PadicPrintMode.TERSE⟩

/-- `PadicContext::PadicContext(p, min, max)` from src/padic.hpp lines
127-134: throws (`InvalidPrime`) exactly when `p.isPrime()` is false,
otherwise initialises the FLINT context in TERSE mode. -/
def mkPadicContext (p : ℕ) (pmin pmax : ℤ) : Except PadicError PadicContext :=
  if isPrime p then Except.ok (mkCtxRaw p pmin pmax) else Except.error PadicError.invalidPrime

/-- `PadicContext::setPrintMode(mode)`: overwrite the shared display mode. -/
def PadicContext.setPrintMode (c : PadicContext) (m : PadicPrintMode) : PadicContext :=
  ⟨c.p, c.pmin, c.pmax, m⟩

/-- `class PadicNumber`: a shared context reference, the working precision
given to `padic_init2` (a signed machine word), and the FLINT
`(unit, valuation)` decomposition of the stored residue.  The stored value
is `u * p ^ v`; the inputs reachable through the wrapper API all have
nonnegative valuation, so `v : ℕ`. -/
structure PadicNumber where
  ctx : PadicContext
  prec : ℤ
  v : ℕ
  u : ℕ
deriving DecidableEq

/-- `PADIC_DEFAULT_PREC`, the FLINT default precision (the src/padic.hpp
comment on the constructor: "default is PADIC_DEFAULT_PREC = 20"). -/
def PADIC_DEFAULT_PREC : ℤ := 20

/-- `PadicNumber::PadicNumber(ctx, prec)` from src/padic.hpp lines 174-177:
stores the context reference and calls `padic_init2(_val, prec)`, which
zero-initialises the value.  No validation of `prec` is performed. -/
def PadicNumber.init (c : PadicContext) (prec : ℤ) : PadicNumber :=
  ⟨c, prec, 0, 0⟩

/-- The constructor seen through the error channel of spec section 7: the
C++ constructor can only fail by throwing, and it never throws. -/
def PadicNumber.initE (c : PadicContext) (prec : ℤ) : Except PadicError PadicNumber :=
  Except.ok (PadicNumber.init c prec)

/-- Fuel-driven p-adic valuation: the number of times `p` divides `n`,
mirroring the repeated division by `p` of the spec (section 4.2).  The fuel
only forces termination; `valp` below supplies enough of it. -/
def valpF : ℕ → ℕ → ℕ → ℕ
  | 0, _, _ => 0
  | fuel + 1, p, n =>
    if 2 ≤ p ∧ 0 < n ∧ n % p = 0 then valpF fuel p (n / p) + 1 else 0

/-- The p-adic valuation of a positive integer (`0` on input `0`). -/
def valp (p n : ℕ) : ℕ := valpF n p n

/-- Modelled from the spec: the `(valuation, unit)` extraction shared by
`padic_set_ui`, `padic_set_si` and the reduction step of the arithmetic
kernels (spec sections 3, 4.2 and 4.4).  The residue is first reduced
mod `p ^ N`; an exact zero is stored with the sentinel valuation `N`
("define exact 0 as valuation = precision, unit = 0"); otherwise the
valuation is extracted and the unit reduced into `[0, p ^ (N - v))`. -/
def decompose (p N r0 : ℕ) : ℕ × ℕ :=
  if r0 % p ^ N = 0 then (N, 0)
  else
    (valp p (r0 % p ^ N),
      r0 % p ^ N / p ^ valp p (r0 % p ^ N) % p ^ (N - valp p (r0 % p ^ N)))

/-- The canonical residue represented by a number: `unit * p ^ valuation`. -/
def PadicNumber.value (x : PadicNumber) : ℕ := x.u * x.ctx.p ^ x.v

/-- `PadicNumber::set(unsigned_long_t)` (src/padic.hpp lines 186-189),
dispatching to `padic_set_ui`.  Modelled from the spec: decompose the
machine integer with respect to the context prime at the stored
precision. -/
def PadicNumber.setUi (x : PadicNumber) (n : ℕ) : PadicNumber :=
  ⟨x.ctx, x.prec, (decompose x.ctx.p x.prec.toNat n).1, (decompose x.ctx.p x.prec.toNat n).2⟩

/-- `PadicNumber::set(signed_long_t)` (src/padic.hpp lines 193-196),
dispatching to `padic_set_si`.  Modelled from the spec: the true integer
value (not a bit pattern) is reduced into `[0, p ^ N)` and decomposed the
same way as in the unsigned case. -/
def PadicNumber.setSi (x : PadicNumber) (n : ℤ) : PadicNumber :=
  ⟨x.ctx, x.prec,
    (decompose x.ctx.p x.prec.toNat (n % ((x.ctx.p ^ x.prec.toNat : ℕ) : ℤ)).toNat).1,
    (decompose x.ctx.p x.prec.toNat (n % ((x.ctx.p ^ x.prec.toNat : ℕ) : ℤ)).toNat).2⟩

/-- `operator+` (src/padic.hpp lines 221-226): the result is constructed as
`PadicNumber y(lhs.getContext())`, i.e. against the left operand's context
at the default precision, and `padic_add` (modelled from the spec: addition
of the canonical residues reduced mod `p ^ N` of the output, then
re-decomposed) fills it in.  No context comparison is performed. -/
def add (lhs rhs : PadicNumber) : PadicNumber :=
  ⟨lhs.ctx, PADIC_DEFAULT_PREC,
    (decompose lhs.ctx.p PADIC_DEFAULT_PREC.toNat (lhs.value + rhs.value)).1,
    (decompose lhs.ctx.p PADIC_DEFAULT_PREC.toNat (lhs.value + rhs.value)).2⟩

/-- The raw difference of canonical residues reduced into `[0, p ^ N)` at
the default output precision, the first step of `padic_sub`. -/
def subResidue (lhs rhs : PadicNumber) : ℕ :=
  (((lhs.value : ℤ) - (rhs.value : ℤ)) % ((lhs.ctx.p ^ PADIC_DEFAULT_PREC.toNat : ℕ) : ℤ)).toNat

/-- `operator-` (src/padic.hpp lines 228-233): as `add`, with `padic_sub`
(modelled from the spec: the raw difference is reduced into `[0, p ^ N)`
before decomposition, never leaving a negative unit). -/
def sub (lhs rhs : PadicNumber) : PadicNumber :=
  ⟨lhs.ctx, PADIC_DEFAULT_PREC,
    (decompose lhs.ctx.p PADIC_DEFAULT_PREC.toNat (subResidue lhs rhs)).1,
    (decompose lhs.ctx.p PADIC_DEFAULT_PREC.toNat (subResidue lhs rhs)).2⟩

/-- `operator+` seen through the error channel: the only way it could fail
is by throwing, and no path in src/padic.hpp lines 221-226 throws. -/
def addE (lhs rhs : PadicNumber) : Except PadicError PadicNumber :=
  Except.ok (add lhs rhs)

/-- `operator-` seen through the error channel; it never throws either. -/
def subE (lhs rhs : PadicNumber) : Except PadicError PadicNumber :=
  Except.ok (sub lhs rhs)

/-- Fuel-driven base-`p` digit extraction, least significant digit first,
mirroring the spec codec ("repeatedly divide the TERSE residue by p,
recording remainders", section 4.3). -/
def digitsF : ℕ → ℕ → ℕ → List ℕ
  | 0, _, _ => []
  | fuel + 1, p, n => if n = 0 then [] else n % p :: digitsF fuel p (n / p)

/-- Base-`p` digits of `n`. -/
def pdigits (p n : ℕ) : List ℕ := digitsF n p n

/-- Modelled from the spec: one SERIES term `d*p^i`, with the exponent-zero
special case rendered as the bare coefficient (section 4.3). -/
def seriesTerm (p e d : ℕ) : String :=
  if e = 0 then Nat.repr d
  else Nat.repr d ++ ("*") ++ Nat.repr p ++ ("^") ++ Nat.repr e

/-- Modelled from the spec: the SERIES encoding of `u * p ^ v`: nonzero
base-`p` digits of the unit, shifted by the valuation, joined by `" + "`. -/
def seriesStr (p v u : ℕ) : String :=
  if u = 0 then ("0")
  else
    String.intercalate (" + ")
      ((pdigits p u).enum.filterMap fun t =>
        if t.2 = 0 then none else some (seriesTerm p (v + t.1) t.2))

/-- Modelled from the spec: the TERSE encoding, the canonical nonnegative
residue printed in base 10 (section 4.3). -/
def terseStr (x : PadicNumber) : String := Nat.repr x.value

/-- Modelled from the spec: the VAL_UNIT encoding renders the unit and the
valuation separately (section 4.3; the exact byte format is not exercised
by any test vector). -/
def valUnitStr (p v u : ℕ) : String :=
  Nat.repr u ++ ("*") ++ Nat.repr p ++ ("^") ++ Nat.repr v

/-- Modelled from the spec: `padic_get_str`, dispatching on the display mode
currently stored in the context. -/
def renderStr (c : PadicContext) (x : PadicNumber) : String :=
  match c.mode with
  | PadicPrintMode.TERSE => terseStr x
  | PadicPrintMode.SERIES => seriesStr c.p x.v x.u
  | PadicPrintMode.VAL_UNIT => valUnitStr c.p x.v x.u

/-- `PadicNumber::toString(mode)` (src/padic.hpp lines 200-205): first
mutates the shared context's print mode via `setPrintMode`, then renders
with the mutated context.  The mutable shared context is threaded as an
explicit state argument and returned alongside the string. -/
def PadicNumber.toString (x : PadicNumber) (mode : PadicPrintMode) (c : PadicContext) :
    String × PadicContext :=
  let c' := c.setPrintMode mode
  (renderStr c' x, c')

/-- `operator<<` (src/padic.hpp lines 214-218): stream insertion renders via
`toString(PadicPrintMode::TERSE)`, with the same side effect on the shared
context. -/
def ostreamOut (x : PadicNumber) (c : PadicContext) : String × PadicContext :=
  x.toString PadicPrintMode.TERSE c

/-- Fuel-driven binary modular exponentiation, `b ^ e mod m`. -/
def powModF : ℕ → ℕ → ℕ → ℕ → ℕ
  | 0, _, _, m => 1 % m
  | fuel + 1, b, e, m =>
    if e = 0 then 1 % m
    else
      let h := powModF fuel (b * b % m) (e / 2) m
      if e % 2 = 1 then b * h % m else h

/-- The inverse of a unit modulo `p ^ N`, via Euler's theorem:
`a ^ (phi(p^N) - 1) mod p^N` with `phi(p^N) = p^N - p^(N-1)`. -/
def unitInv (p N a : ℕ) : ℕ :=
  powModF (p ^ N) a (p ^ N - p ^ (N - 1) - 1) (p ^ N)

/-- The part of `n` coprime to `p`: `n` with all factors of `p` removed. -/
def unitPart (p n : ℕ) : ℕ := n / p ^ valp p n

/-- The number of series terms summed for a target precision `N`.  Spec
section 4.5 truncates "once the p-adic valuation of successive terms exceeds
targetPrecision"; every term past this bound has valuation above `N` for
every convergent input, so the two truncations agree mod `p ^ N`. -/
def seriesCut (N : ℕ) : ℕ := 3 * N + 10

/-- Modelled from the spec: the `n`-th term of the p-adic logarithm series
`(x-1)^n / n` reduced mod `p ^ N` (section 4.5): division by `n` removes the
common factors of `p` from the numerator first ("division by n is valid only
after removing common factors of p") and multiplies by the inverse of the
remaining unit of `n`. -/
def logTerm (p N d n : ℕ) : ℕ :=
  d ^ n / p ^ valp p n * unitInv p N (unitPart p n) % p ^ N

/-- Modelled from the spec: the alternating-sign truncated logarithm series
`sum_(n >= 1) (-1)^(n+1) (x-1)^n / n`, as an integer. -/
def logSumZ (p N d : ℕ) : ℤ :=
  ((List.range (seriesCut N)).map fun k =>
    (if (k + 1) % 2 = 1 then (1 : ℤ) else -1) * (logTerm p N d (k + 1) : ℤ)).sum

/-- The truncated logarithm series reduced into `[0, p ^ N)`. -/
def logResidue (p N d : ℕ) : ℕ := (logSumZ p N d % ((p ^ N : ℕ) : ℤ)).toNat

/-- Modelled from the spec: the convergence precondition of the p-adic
logarithm, `x = 1 (mod p)` for odd `p` and `x = 1 (mod 4)` for `p = 2`
(section 4.5). -/
def logDom (x : PadicNumber) : Bool :=
  if x.ctx.p = 2 then decide (x.value % 4 = 1) else decide (x.value % x.ctx.p = 1)

/-- The number produced by `padic_log` on a convergent input: the truncated
series of `x - 1` at the target precision, re-decomposed. -/
def logNum (x : PadicNumber) (prec : ℤ) : PadicNumber :=
  ⟨x.ctx, prec,
    (decompose x.ctx.p prec.toNat (logResidue x.ctx.p prec.toNat (x.value - 1))).1,
    (decompose x.ctx.p prec.toNat (logResidue x.ctx.p prec.toNat (x.value - 1))).2⟩

/-- `log(x, prec)` (src/padic.hpp lines 235-244): a result is constructed
against `x`'s context at precision `prec`; `padic_log` reports convergence,
and a nonconvergent input raises the domain error. -/
def log (x : PadicNumber) (prec : ℤ) : Except PadicError PadicNumber :=
  if logDom x then Except.ok (logNum x prec) else Except.error PadicError.domainError

/-- Modelled from the spec: the `n`-th term of the p-adic exponential series
`x^n / n!` reduced mod `p ^ N`, with the factors of `p` in `n!` removed from
the numerator and the remaining unit of `n!` inverted (section 4.5). -/
def expTerm (p N t n : ℕ) : ℕ :=
  t ^ n / p ^ valp p (Nat.factorial n) * unitInv p N (unitPart p (Nat.factorial n)) % p ^ N

/-- Modelled from the spec: the truncated exponential series
`sum_(n >= 0) x^n / n!`. -/
def expSum (p N t : ℕ) : ℕ :=
  ((List.range (seriesCut N)).map fun n => expTerm p N t n).sum

/-- Modelled from the spec and the repository's own `test_exp` expectation:
the convergence precondition of the p-adic exponential, valuation at least
`1` for odd `p` and at least `2` for `p = 2` (equivalently
`val(x) > 1/(p-1)`); an exact zero always converges.  The repository test
exercises `exp(4)` at `p = 2` (valuation exactly 2) and expects success. -/
def expDom (x : PadicNumber) : Bool :=
  decide (x.u = 0) || decide ((if x.ctx.p = 2 then 2 else 1) ≤ x.v)

/-- The number produced by `padic_exp` on a convergent input. -/
def expNum (x : PadicNumber) (prec : ℤ) : PadicNumber :=
  ⟨x.ctx, prec,
    (decompose x.ctx.p prec.toNat (expSum x.ctx.p prec.toNat x.value)).1,
    (decompose x.ctx.p prec.toNat (expSum x.ctx.p prec.toNat x.value)).2⟩

/-- `exp(x, prec)` (src/padic.hpp lines 246-255): as `log`, with the
exponential convergence test. -/
def exp (x : PadicNumber) (prec : ℤ) : Except PadicError PadicNumber :=
  if expDom x then Except.ok (expNum x prec) else Except.error PadicError.domainError

/-- The context of `test_case_1`: prime 7, default power window. -/
def ctx7 : PadicContext := mkCtxRaw 7 8 12

/-- The context of `test_case_3`: prime 3, default power window. -/
def ctx3 : PadicContext := mkCtxRaw 3 8 12

/-- A context over the prime 5, default power window. -/
def ctx5 : PadicContext := mkCtxRaw 5 8 12

/-- A context over the prime 2, default power window. -/
def ctx2 : PadicContext := mkCtxRaw 2 8 12

/-- The context of `test_exp`: prime 2, power window `[10, 25]`. -/
def ctx2w : PadicContext := mkCtxRaw 2 10 25

/-- The value of `test_case_1`: 127 at precision 10 over prime 7. -/
def x127 : PadicNumber := (PadicNumber.init ctx7 10).setUi 127

/-- A second precision-10 value over prime 7. -/
def y3 : PadicNumber := (PadicNumber.init ctx7 10).setUi 3

/-- The value of `test_exp`: 4 at the default precision over prime 2. -/
def xExp4 : PadicNumber := (PadicNumber.init ctx2w PADIC_DEFAULT_PREC).setUi 4

/-- A 1-unit over the odd prime 3 (4 = 1 mod 3) at the default precision. -/
def xLog4 : PadicNumber := (PadicNumber.init ctx3 PADIC_DEFAULT_PREC).setUi 4

/-- A precision-30 value over prime 2 whose residue 2^25 exceeds the default
output modulus 2^20. -/
def xBig : PadicNumber := (PadicNumber.init ctx2 30).setUi 33554432

/-- A precision-30 zero over prime 2. -/
def yZero : PadicNumber := (PadicNumber.init ctx2 30).setUi 0

/-- A value bound to a prime-3 context. -/
def xOn3 : PadicNumber := (PadicNumber.init ctx3 10).setUi 1

/-- A value bound to a prime-5 context. -/
def yOn5 : PadicNumber := (PadicNumber.init ctx5 10).setUi 1

end flint

namespace flint

theorem valpF_pow_dvd (p : ℕ) : ∀ fuel n, n ≤ fuel → p ^ valpF fuel p n ∣ n := by
  intro fuel
  induction fuel with
  | zero => intro n _; simp [valpF]
  | succ fuel ih =>
    intro n hn
    rw [valpF]
    split
    case isTrue h =>
      obtain ⟨hp, hn0, hmod⟩ := h
      have hdvd : p ∣ n := Nat.dvd_of_mod_eq_zero hmod
      have hlt : n / p < n := Nat.div_lt_self hn0 (by omega)
      have hrec := ih (n / p) (by omega)
      rw [pow_succ]
      calc p ^ valpF fuel p (n / p) * p ∣ (n / p) * p := mul_dvd_mul_right hrec p
        _ = n := Nat.div_mul_cancel hdvd
    case isFalse => simp

theorem valp_pow_dvd (p n : ℕ) : p ^ valp p n ∣ n :=
  valpF_pow_dvd p n n le_rfl

theorem valp_lt (p n : ℕ) (hp : 2 ≤ p) (hn : 0 < n) : valp p n < n := by
  have h1 : p ^ valp p n ≤ n := Nat.le_of_dvd hn (valp_pow_dvd p n)
  have h2 : n < p ^ n := Nat.lt_pow_self (by omega) n
  exact (Nat.pow_lt_pow_iff_right (by omega)).mp (lt_of_le_of_lt h1 h2)

theorem valp_pos (p n : ℕ) (hp : 2 ≤ p) (hn : 0 < n) (hd : p ∣ n) : 0 < valp p n := by
  obtain ⟨m, rfl⟩ : ∃ m, n = m + 1 := ⟨n - 1, by omega⟩
  have hmod : (m + 1) % p = 0 := Nat.mod_eq_zero_of_dvd hd
  unfold valp
  rw [valpF, if_pos ⟨hp, hn, hmod⟩]
  omega

theorem decompose_value (p N r0 : ℕ) (hp : 2 ≤ p) :
    (decompose p N r0).2 * p ^ (decompose p N r0).1 = r0 % p ^ N := by
  unfold decompose
  split
  case isTrue h => simpa using h.symm
  case isFalse h =>
    have hrpos : 0 < r0 % p ^ N := Nat.pos_of_ne_zero h
    have hdvd := valp_pow_dvd p (r0 % p ^ N)
    have hplt : (1:ℕ) < p := by omega
    have hrlt : r0 % p ^ N < p ^ N := Nat.mod_lt r0 (pow_pos (by omega) N)
    have hvle : valp p (r0 % p ^ N) < N := by
      have h1 : p ^ valp p (r0 % p ^ N) ≤ r0 % p ^ N := Nat.le_of_dvd hrpos hdvd
      exact (Nat.pow_lt_pow_iff_right hplt).mp (lt_of_le_of_lt h1 hrlt)
    have hq : r0 % p ^ N / p ^ valp p (r0 % p ^ N) < p ^ (N - valp p (r0 % p ^ N)) := by
      rw [Nat.div_lt_iff_lt_mul (pow_pos (by omega) _)]
      calc r0 % p ^ N < p ^ N := hrlt
        _ = p ^ (N - valp p (r0 % p ^ N)) * p ^ valp p (r0 % p ^ N) := by
            rw [← pow_add]; congr 1; omega
    simp only []
    rw [Nat.mod_eq_of_lt hq, Nat.div_mul_cancel hdvd]

theorem decompose_unit_lt (p N r0 : ℕ) (hp : 2 ≤ p) :
    (decompose p N r0).2 < p ^ (N - (decompose p N r0).1) := by
  unfold decompose
  split
  · exact pow_pos (show 0 < p by omega) (N - N)
  · exact Nat.mod_lt _ (pow_pos (by omega) _)

theorem dvd_logTerm (p N d n : ℕ) (hp : 2 ≤ p) (hN : 0 < N) (hd : p ∣ d) (hn : 0 < n) :
    p ∣ logTerm p N d n := by
  unfold logTerm
  apply (Nat.dvd_mod_iff (dvd_pow_self p (Nat.pos_iff_ne_zero.mp hN))).mpr
  apply Dvd.dvd.mul_right
  rcases Nat.eq_zero_or_pos d with hd0 | hdpos
  · subst hd0
    rw [zero_pow (Nat.pos_iff_ne_zero.mp hn), Nat.zero_div]
    exact dvd_zero p
  · obtain ⟨m, rfl⟩ := hd
    have hk : valp p n < n := valp_lt p n hp hn
    have hsplit : (p * m) ^ n / p ^ valp p n = p ^ (n - valp p n) * m ^ n := by
      rw [mul_pow]
      have hpow : p ^ n = p ^ valp p n * p ^ (n - valp p n) := by
        rw [← pow_add]; congr 1; omega
      rw [hpow, mul_assoc, Nat.mul_div_cancel_left _ (pow_pos (by omega) _)]
    rw [hsplit]
    exact Dvd.dvd.mul_right (dvd_pow_self p (by omega)) _

theorem dvd_logResidue (p N d : ℕ) (hp : 2 ≤ p) (hN : 0 < N) (hd : p ∣ d) :
    p ∣ logResidue p N d := by
  have hsum : (p : ℤ) ∣ logSumZ p N d := by
    unfold logSumZ
    apply List.dvd_sum
    intro x hx
    simp only [List.mem_map, List.mem_range] at hx
    obtain ⟨k, _, rfl⟩ := hx
    exact Dvd.dvd.mul_left
      (Int.natCast_dvd_natCast.mpr (dvd_logTerm p N d (k + 1) hp hN hd (Nat.succ_pos k))) _
  have hM : (p : ℤ) ∣ ((p ^ N : ℕ) : ℤ) :=
    Int.natCast_dvd_natCast.mpr (dvd_pow_self p (Nat.pos_iff_ne_zero.mp hN))
  have hMne : ((p ^ N : ℕ) : ℤ) ≠ 0 := by
    have : (0:ℕ) < p ^ N := pow_pos (by omega) N
    exact_mod_cast this.ne.symm
  have hmod : (p : ℤ) ∣ logSumZ p N d % ((p ^ N : ℕ) : ℤ) := by
    rw [Int.emod_def]
    exact dvd_sub hsum (hM.mul_right _)
  have hnn : 0 ≤ logSumZ p N d % ((p ^ N : ℕ) : ℤ) := Int.emod_nonneg _ hMne
  unfold logResidue
  exact Int.natCast_dvd_natCast.mp (by rwa [Int.toNat_of_nonneg hnn])

theorem decompose_v_pos (p N r0 : ℕ) (hp : 2 ≤ p) (hN : 0 < N) (hd : p ∣ r0) :
    0 < (decompose p N r0).1 := by
  have hdr : p ∣ r0 % p ^ N :=
    (Nat.dvd_mod_iff (dvd_pow_self p (Nat.pos_iff_ne_zero.mp hN))).mpr hd
  unfold decompose
  split
  case isTrue => simpa using hN
  case isFalse h => exact valp_pos p _ hp (Nat.pos_of_ne_zero h) hdr

theorem add_value (x y : PadicNumber) (hp : 2 ≤ x.ctx.p) :
    (add x y).value = (x.value + y.value) % x.ctx.p ^ 20 :=
  decompose_value x.ctx.p PADIC_DEFAULT_PREC.toNat (x.value + y.value) hp

theorem sub_value (a y : PadicNumber) (hp : 2 ≤ a.ctx.p) :
    (sub a y).value = subResidue a y % a.ctx.p ^ 20 :=
  decompose_value a.ctx.p PADIC_DEFAULT_PREC.toNat (subResidue a y) hp

theorem sub_add_value (x y : PadicNumber) (hp : 2 ≤ x.ctx.p)
    (hx : x.value < x.ctx.p ^ 20) : (sub (add x y) y).value = x.value := by
  have hMpos : (0:ℕ) < x.ctx.p ^ 20 := pow_pos (by omega) _
  have hMz : ((x.ctx.p ^ 20 : ℕ) : ℤ) ≠ 0 := by exact_mod_cast hMpos.ne.symm
  have hsr : ((subResidue (add x y) y : ℕ) : ℤ)
      = ((((add x y).value : ℤ) - (y.value : ℤ)) % ((x.ctx.p ^ 20 : ℕ) : ℤ)) := by
    unfold subResidue
    exact Int.toNat_of_nonneg (Int.emod_nonneg _ hMz)
  have hadd : ((add x y).value : ℤ)
      = ((x.value : ℤ) + (y.value : ℤ)) % ((x.ctx.p ^ 20 : ℕ) : ℤ) := by
    rw [add_value x y hp]
    push_cast
    rfl
  have hkey : ((subResidue (add x y) y : ℕ) : ℤ) = (x.value : ℤ) := by
    rw [hsr, hadd]
    have h1 : (((x.value : ℤ) + (y.value : ℤ)) % ((x.ctx.p ^ 20 : ℕ) : ℤ) - (y.value : ℤ))
          % ((x.ctx.p ^ 20 : ℕ) : ℤ)
        = (((x.value : ℤ) + (y.value : ℤ)) - (y.value : ℤ)) % ((x.ctx.p ^ 20 : ℕ) : ℤ) := by
      conv_lhs => rw [Int.sub_emod]
      conv_rhs => rw [Int.sub_emod]
      rw [Int.emod_emod_of_dvd _ dvd_rfl]
    rw [h1, add_sub_cancel_right]
    exact Int.emod_eq_of_lt (Int.natCast_nonneg _) (by exact_mod_cast hx)
  have hnat : subResidue (add x y) y = x.value := by exact_mod_cast hkey
  rw [sub_value (add x y) y hp, hnat]
  exact Nat.mod_eq_of_lt hx

theorem isPrime_iff (p : ℕ) : isPrime p = true ↔ p.Prime := by
  unfold isPrime
  rw [Bool.and_eq_true, List.all_eq_true]
  simp only [List.mem_range, Bool.or_eq_true, decide_eq_true_eq]
  rw [Nat.prime_def_lt']
  constructor
  · rintro ⟨h2, hall⟩
    refine ⟨h2, fun m hm hmp hdvd => ?_⟩
    rcases hall m hmp with h | h
    · omega
    · exact h (Nat.mod_eq_zero_of_dvd hdvd)
  · rintro ⟨h2, hall⟩
    refine ⟨h2, fun m hmp => ?_⟩
    by_cases hm : m < 2
    · exact Or.inl hm
    · exact Or.inr fun hmod => hall m (by omega) hmp (Nat.dvd_of_mod_eq_zero hmod)

end flint

open flint

/-- C1.  The claim says the result of `add(x, y)` and `sub(x, y)` carries
precision `min(x.precision, y.precision)`.  It does not: `operator+` and
`operator-` construct the result as `PadicNumber y(lhs.getContext())`,
omitting the precision argument, so the result carries
`PADIC_DEFAULT_PREC = 20` whatever the operands carry.  Here two precision-10
operands over the same context produce precision-20 results. -/
theorem C1_counterexample :
    x127.ctx = y3.ctx ∧ x127.prec = 10 ∧ y3.prec = 10 ∧
    (add x127 y3).prec = 20 ∧ (sub x127 y3).prec = 20 ∧
    (add x127 y3).prec ≠ min x127.prec y3.prec ∧
    (sub x127 y3).prec ≠ min x127.prec y3.prec :=
  ⟨rfl, rfl, rfl, rfl, rfl, by decide, by decide⟩

/-- C1 (amended).  For every pair of PadicValues, the result of `add(x, y)`
and of `sub(x, y)` has precision `PADIC_DEFAULT_PREC = 20`, independent of
the operands' precisions. -/
theorem C1_result_precision (x y : PadicNumber) :
    (add x y).prec = PADIC_DEFAULT_PREC ∧ (sub x y).prec = PADIC_DEFAULT_PREC :=
  ⟨rfl, rfl⟩

/-- C2.  The claim says `add`/`sub` fail with `ContextMismatch` whenever the
operands do not share a context.  No context comparison exists in
`operator+`/`operator-`: here two values over distinct contexts (primes 3
and 5) are combined and both operations succeed. -/
theorem C2_counterexample :
    xOn3.ctx ≠ yOn5.ctx ∧
    addE xOn3 yOn5 = Except.ok (add xOn3 yOn5) ∧
    subE xOn3 yOn5 = Except.ok (sub xOn3 yOn5) :=
  ⟨by decide, rfl, rfl⟩

/-- C2 (amended).  `add(x, y)` and `sub(x, y)` never fail: no context check
is performed, and the result is always computed against the left operand's
context, whatever context the right operand carries. -/
theorem C2_no_context_check (x y : PadicNumber) :
    addE x y = Except.ok (add x y) ∧ subE x y = Except.ok (sub x y) ∧
    (add x y).ctx = x.ctx ∧ (sub x y).ctx = x.ctx :=
  ⟨rfl, rfl, rfl, rfl⟩

/-- C3.  The claim says `PadicValue::create(context, N)` fails with
`InvalidPrecision` for `N` not `> 0`.  The constructor performs no precision
validation: at `N = 0` it succeeds and zero-initialises. -/
theorem C3_counterexample :
    PadicNumber.initE ctx7 0 = Except.ok (PadicNumber.init ctx7 0) ∧
    (PadicNumber.init ctx7 0).value = 0 :=
  ⟨rfl, rfl⟩

/-- C3 (amended).  `PadicValue::create(context, N)` never validates the
requested precision: it succeeds for every `N` (including `N ≤ 0`) and
initialises the value to the representation of zero. -/
theorem C3_create_no_validation (c : PadicContext) (prec : ℤ) :
    PadicNumber.initE c prec = Except.ok (PadicNumber.init c prec) ∧
    (PadicNumber.init c prec).value = 0 ∧
    (PadicNumber.init c prec).prec = prec :=
  ⟨rfl, by simp [PadicNumber.init, PadicNumber.value], rfl⟩

/-- C4.  Constructing a PrimeContext from `p` fails with `InvalidPrime`
exactly when `p` does not pass the primality test, and succeeds for every
prime `p` (src/padic.hpp lines 127-134 guard on `p.isPrime()`). -/
theorem C4_prime_validation (p : ℕ) (pmin pmax : ℤ) :
    (mkPadicContext p pmin pmax = Except.error PadicError.invalidPrime ↔ ¬ p.Prime) ∧
    (p.Prime → mkPadicContext p pmin pmax = Except.ok (mkCtxRaw p pmin pmax)) := by
  constructor
  · rw [← isPrime_iff]
    cases h : isPrime p
    · simp [mkPadicContext, h]
    · simp [mkPadicContext, h]
  · intro hp
    rw [mkPadicContext, if_pos ((isPrime_iff p).mpr hp)]

/-- C4 witness: the composite 15 is rejected and the prime 7 is accepted,
instantiating `C4_prime_validation` at `p = 7`. -/
theorem C4_prime_validation_witness :
    (¬ Nat.Prime 15 ∧ mkPadicContext 15 8 12 = Except.error PadicError.invalidPrime) ∧
    (Nat.Prime 7 ∧ mkPadicContext 7 8 12 = Except.ok (mkCtxRaw 7 8 12)) :=
  ⟨⟨by decide, (C4_prime_validation 15 8 12).1.mpr (by decide)⟩,
   ⟨by norm_num, (C4_prime_validation 7 8 12).2 (by norm_num)⟩⟩

/-- C5.  With prime 7, the PadicValue of precision 10 set to 127 renders as
the TERSE string "127" and as the SERIES string "1 + 4*7^1 + 2*7^2",
exactly as `test_case_1` expects; the second render is performed against the
context state left behind by the first, as in the test. -/
theorem C5_concrete_render :
    mkPadicContext 7 8 12 = Except.ok ctx7 ∧
    (x127.toString PadicPrintMode.TERSE ctx7).1 = "127" ∧
    (x127.toString PadicPrintMode.SERIES (x127.toString PadicPrintMode.TERSE ctx7).2).1
      = "1 + 4*7^1 + 2*7^2" :=
  ⟨rfl, by rfl, by rfl⟩

/-- C6.  `set` on a signed negative input decomposes the true negative value
over the integers: the stored residue is congruent to `n` modulo
`p ^ precision` and the unit is reduced into `[0, p ^ (precision - v))`;
concretely, `-127` over prime 3 at precision 10 renders as TERSE "58922" and
as the expected SERIES string of `test_case_3`. -/
theorem C6_set_signed :
    (∀ (c : PadicContext) (prec : ℤ) (n : ℤ), 2 ≤ c.p → n < 0 →
      ((((PadicNumber.init c prec).setSi n).value : ℤ)
          ≡ n [ZMOD ((c.p ^ prec.toNat : ℕ) : ℤ)]) ∧
      ((PadicNumber.init c prec).setSi n).u
        < c.p ^ (prec.toNat - ((PadicNumber.init c prec).setSi n).v)) ∧
    (mkPadicContext 3 8 12 = Except.ok ctx3 ∧
     (((PadicNumber.init ctx3 10).setSi (-127)).toString PadicPrintMode.TERSE ctx3).1
       = "58922" ∧
     (((PadicNumber.init ctx3 10).setSi (-127)).toString PadicPrintMode.SERIES
        ((((PadicNumber.init ctx3 10).setSi (-127)).toString PadicPrintMode.TERSE ctx3).2)).1
       = "2 + 2*3^1 + 1*3^3 + 1*3^4 + 2*3^5 + 2*3^6 + 2*3^7 + 2*3^8 + 2*3^9") := by
  constructor
  · intro c prec n hp _hn
    have hMpos : (0:ℕ) < c.p ^ prec.toNat := pow_pos (by omega) _
    have hMz : ((c.p ^ prec.toNat : ℕ) : ℤ) ≠ 0 := by exact_mod_cast hMpos.ne.symm
    have hcast : (((n % ((c.p ^ prec.toNat : ℕ) : ℤ)).toNat : ℕ) : ℤ)
        = n % ((c.p ^ prec.toNat : ℕ) : ℤ) :=
      Int.toNat_of_nonneg (Int.emod_nonneg n hMz)
    have hlt : (n % ((c.p ^ prec.toNat : ℕ) : ℤ)).toNat < c.p ^ prec.toNat := by
      have hb := Int.emod_lt_of_pos n (b := ((c.p ^ prec.toNat : ℕ) : ℤ))
        (by exact_mod_cast hMpos)
      omega
    constructor
    · have hval := decompose_value c.p prec.toNat (n % ((c.p ^ prec.toNat : ℕ) : ℤ)).toNat hp
      have hvv : ((PadicNumber.init c prec).setSi n).value
          = (n % ((c.p ^ prec.toNat : ℕ) : ℤ)).toNat % c.p ^ prec.toNat := hval
      rw [Nat.mod_eq_of_lt hlt] at hvv
      show (((PadicNumber.init c prec).setSi n).value : ℤ) % _ = n % _
      rw [hvv, hcast, Int.emod_emod_of_dvd _ dvd_rfl]
    · exact decompose_unit_lt c.p prec.toNat _ hp
  · exact ⟨rfl, by rfl, by rfl⟩

/-- C6 witness: `C6_set_signed` instantiated at prime 3, precision 10,
input -127. -/
theorem C6_set_signed_witness :
    (2 ≤ ctx3.p ∧ (-127 : ℤ) < 0) ∧
    (((((PadicNumber.init ctx3 10).setSi (-127)).value : ℤ)
        ≡ -127 [ZMOD ((ctx3.p ^ (10 : ℤ).toNat : ℕ) : ℤ)]) ∧
     ((PadicNumber.init ctx3 10).setSi (-127)).u
       < ctx3.p ^ ((10 : ℤ).toNat - ((PadicNumber.init ctx3 10).setSi (-127)).v)) :=
  ⟨⟨by decide, by decide⟩,
   C6_set_signed.1 ctx3 10 (-127) (by decide) (by decide)⟩

set_option maxRecDepth 40000 in
/-- C7.  The claim's exponential bound is wrong for `p = 2`: it predicts
failure whenever `valuation(x) ≤ e/(p-1)` with `e = 2` at `p = 2`, i.e. for
every valuation up to 2, but the code converges at valuation exactly 2.  The
repository's own `test_exp` exercises `exp(4)` over prime 2 (valuation 2)
and expects success with TERSE value "934221", which the embedding
reproduces. -/
theorem C7_counterexample :
    xExp4.v = 2 ∧ xExp4.ctx.p = 2 ∧
    exp xExp4 PADIC_DEFAULT_PREC = Except.ok (expNum xExp4 PADIC_DEFAULT_PREC) ∧
    ((expNum xExp4 PADIC_DEFAULT_PREC).toString PadicPrintMode.TERSE ctx2w).1 = "934221" :=
  ⟨rfl, rfl, rfl, by rfl⟩

/-- C7 (amended).  `log(x, prec)` fails with `DomainError` exactly when `x`
is outside the log convergence domain (`x = 1 mod p` for odd `p`,
`x = 1 mod 4` for `p = 2`), and `exp(x, prec)` fails with `DomainError`
exactly when `x` is nonzero and `valuation(x) ≤ 1/(p-1)` (below 1 for odd
`p`, below 2 for `p = 2`; the ramification factor is 1 for every prime);
on success each returns a value of precision `prec`. -/
theorem C7_domain_errors (x : PadicNumber) (prec : ℤ) :
    (log x prec = Except.error PadicError.domainError ↔
      ¬ (if x.ctx.p = 2 then x.value % 4 = 1 else x.value % x.ctx.p = 1)) ∧
    (exp x prec = Except.error PadicError.domainError ↔
      ¬ (x.u = 0 ∨ (if x.ctx.p = 2 then 2 else 1) ≤ x.v)) ∧
    (∀ y, log x prec = Except.ok y → y.prec = prec) ∧
    (∀ y, exp x prec = Except.ok y → y.prec = prec) := by
  have hlog : logDom x = true
      ↔ (if x.ctx.p = 2 then x.value % 4 = 1 else x.value % x.ctx.p = 1) := by
    unfold logDom
    split <;> simp
  have hexp : expDom x = true ↔ (x.u = 0 ∨ (if x.ctx.p = 2 then 2 else 1) ≤ x.v) := by
    unfold expDom
    simp
  refine ⟨?_, ?_, ?_, ?_⟩
  · rw [← hlog]
    cases h : logDom x
    · simp [log, h]
    · simp [log, h]
  · rw [← hexp]
    cases h : expDom x
    · simp [exp, h]
    · simp [exp, h]
  · intro y hy
    unfold log at hy
    split at hy
    · cases hy; rfl
    · exact Except.noConfusion hy
  · intro y hy
    unfold exp at hy
    split at hy
    · cases hy; rfl
    · exact Except.noConfusion hy

/-- C7 witness: `C7_domain_errors` instantiated at the convergent inputs
`xLog4` (a 1-unit over prime 3) and `xExp4` (valuation 2 over prime 2),
discharging the success hypotheses by evaluation. -/
theorem C7_domain_errors_witness :
    (logNum xLog4 20).prec = 20 ∧ (expNum xExp4 20).prec = 20 :=
  ⟨(C7_domain_errors xLog4 20).2.2.1 (logNum xLog4 20) (by rfl),
   (C7_domain_errors xExp4 20).2.2.2 (expNum xExp4 20) (by rfl)⟩

/-- C8.  The claim's round-trip law fails for operand precisions above the
default output precision 20: over prime 2 at precision 30, with `x` holding
the residue `2^25` and `y` holding zero, `add` truncates to `2^25 mod 2^20
= 0`, so `sub(add(x, y), y)` renders "0" while `x` renders "33554432". -/
theorem C8_counterexample :
    xBig.ctx = yZero.ctx ∧ xBig.prec = 30 ∧ yZero.prec = 30 ∧
    ((sub (add xBig yZero) yZero).toString PadicPrintMode.TERSE ctx2).1 = "0" ∧
    (xBig.toString PadicPrintMode.TERSE ctx2).1 = "33554432" :=
  ⟨rfl, rfl, rfl, by rfl, by rfl⟩

/-- C8 (amended).  For every pair of PadicValues sharing a context,
`add(x, y)` equals `add(y, x)` unconditionally; and `sub(add(x, y), y)`
renders identically to `x` provided `x`'s canonical residue fits below the
default output modulus `p ^ 20` (in particular whenever the shared precision
is at most `PADIC_DEFAULT_PREC = 20`). -/
theorem C8_add_comm_sub_inverse (x y : PadicNumber) (c : PadicContext)
    (hctx : x.ctx = y.ctx) :
    add x y = add y x ∧
    (2 ≤ x.ctx.p → x.value < x.ctx.p ^ 20 →
      ((sub (add x y) y).toString PadicPrintMode.TERSE c).1
        = (x.toString PadicPrintMode.TERSE c).1) := by
  constructor
  · unfold add
    rw [hctx, Nat.add_comm x.value y.value]
  · intro hp hx
    show Nat.repr (sub (add x y) y).value = Nat.repr x.value
    rw [sub_add_value x y hp hx]

/-- C8 witness: `C8_add_comm_sub_inverse` instantiated at the two
precision-10 values 127 and 3 over prime 7, discharging the shared-context
hypothesis and the round-trip provisos there. -/
theorem C8_add_comm_sub_inverse_witness :
    (x127.ctx = y3.ctx ∧ 2 ≤ x127.ctx.p ∧ x127.value < x127.ctx.p ^ 20) ∧
    (add x127 y3 = add y3 x127 ∧
     ((sub (add x127 y3) y3).toString PadicPrintMode.TERSE ctx7).1
       = (x127.toString PadicPrintMode.TERSE ctx7).1) :=
  ⟨⟨rfl, by decide, by decide⟩,
   ⟨(C8_add_comm_sub_inverse x127 y3 ctx7 rfl).1,
    (C8_add_comm_sub_inverse x127 y3 ctx7 rfl).2 (by decide) (by decide)⟩⟩

/-- C9.  For every odd prime `p` and every PadicValue `x` with
`x = 1 mod p`, `log(x)` converges and the valuation of the result is at
least 1: every term of the truncated logarithm series of `x - 1` is
divisible by `p`, and an exactly-zero result carries the sentinel valuation
`precision` (spec section 4.2), itself at least 1. -/
theorem C9_log_unit_valuation (x : PadicNumber) (prec : ℤ)
    (hprime : Nat.Prime x.ctx.p) (hodd : x.ctx.p ≠ 2)
    (hcong : x.value % x.ctx.p = 1) (hprec : 1 ≤ prec) :
    log x prec = Except.ok (logNum x prec) ∧ 1 ≤ (logNum x prec).v := by
  have hp : 2 ≤ x.ctx.p := hprime.two_le
  have hdom : logDom x = true := by
    unfold logDom
    rw [if_neg hodd]
    simpa using hcong
  constructor
  · simp [log, hdom]
  · have hN : 0 < prec.toNat := by omega
    have hvnz : x.value ≠ 0 := by
      intro h0
      rw [h0] at hcong
      simp at hcong
    have hdvd : x.ctx.p ∣ x.value - 1 := by
      have hdm := Nat.div_add_mod x.value x.ctx.p
      exact ⟨x.value / x.ctx.p, by omega⟩
    have hres := dvd_logResidue x.ctx.p prec.toNat (x.value - 1) hp hN hdvd
    exact decompose_v_pos x.ctx.p prec.toNat _ hp hN hres

/-- C9 witness: `C9_log_unit_valuation` instantiated at the 1-unit 4 over
the odd prime 3 at the default precision. -/
theorem C9_log_unit_valuation_witness :
    (Nat.Prime xLog4.ctx.p ∧ xLog4.ctx.p ≠ 2 ∧ xLog4.value % xLog4.ctx.p = 1 ∧
     (1 : ℤ) ≤ 20) ∧
    (log xLog4 20 = Except.ok (logNum xLog4 20) ∧ 1 ≤ (logNum xLog4 20).v) :=
  ⟨⟨by decide, by decide, by decide, by norm_num⟩,
   C9_log_unit_valuation xLog4 20 (by decide) (by decide) (by decide) (by norm_num)⟩

/-- C10.  A newly constructed PrimeContext starts in TERSE display mode
(`padic_ctx_init(..., PADIC_TERSE)`); `toString(value, mode)` leaves the
shared context's display mode equal to `mode`; and stream insertion renders
through `toString(TERSE)`, producing the TERSE encoding and resetting the
shared mode to TERSE as a side effect. -/
theorem C10_display_mode_effects :
    (∀ (p : ℕ) (pmin pmax : ℤ) (c : PadicContext),
      mkPadicContext p pmin pmax = Except.ok c → c.mode = PadicPrintMode.TERSE) ∧
    (∀ (x : PadicNumber) (m : PadicPrintMode) (c : PadicContext),
      ((x.toString m c).2).mode = m) ∧
    (∀ (x : PadicNumber) (c : PadicContext),
      ostreamOut x c = x.toString PadicPrintMode.TERSE c ∧
      (ostreamOut x c).1 = terseStr x ∧
      ((ostreamOut x c).2).mode = PadicPrintMode.TERSE) := by
  refine ⟨?_, fun x m c => rfl, fun x c => ⟨rfl, rfl, rfl⟩⟩
  intro p pmin pmax c h
  unfold mkPadicContext at h
  split at h
  · cases h; rfl
  · exact Except.noConfusion h

/-- C10 witness: `C10_display_mode_effects` instantiated at the prime-7
context construction. -/
theorem C10_display_mode_effects_witness :
    (mkCtxRaw 7 8 12).mode = PadicPrintMode.TERSE :=
  C10_display_mode_effects.1 7 8 12 (mkCtxRaw 7 8 12) (by rfl)
